import Mathlib

/-!
# Verification of the `uci-suite` EPD test runner

A shallow embedding of `src/main.rs` of the `uci-suite` repository: an EPD
test-suite runner for UCI chess engines.  We embed

* `parse_epd` — parsing one EPD line into a position record
  (`fen`, `best_moves`, `id`), faithful to the Rust control flow including
  the out-of-bounds slice panics and the global parse counter;
* the per-record response-reading loop of `main` (normal termination on a
  line containing `bestmove`, and the `earlypass` path that inspects `pv`
  lines, sends `stop` and drains);
* the surrounding run pipeline of `main`: fail-fast parsing of all lines,
  the `uci`/`isready` handshake, option configuration, and the pass/total
  scoring.

The external chess-rules crate (`shakmaty`) is not part of this repository;
its API surface used by the code (`Fen` parsing, `into_position`, SAN
parsing, `San::to_move`, `to_uci`, `Display` of SAN) is abstracted as an
explicit `ChessRules` interface, and theorems quantify over it.  Strings in
the Rust code are byte-indexed; the embedding indexes by character, which
coincides on the ASCII data the protocol and EPD format use.
-/

set_option maxRecDepth 4000

namespace Uci

/-- Rust's `str::split_whitespace` on a character list: maximal runs of
non-whitespace characters, with whitespace runs discarded.  `acc` holds the
current (reversed) token. -/
def splitWSAux : List Char → List Char → List (List Char)
  | [], acc => if acc.isEmpty then [] else [acc.reverse]
  | c :: cs, acc =>
    if c.isWhitespace then
      if acc.isEmpty then splitWSAux cs [] else acc.reverse :: splitWSAux cs []
    else splitWSAux cs (c :: acc)

/-- `line.split_whitespace()` collected to a list of token strings. -/
def splitWhitespace (s : String) : List String :=
  (splitWSAux s.data []).map String.mk

/-- Rust's `str::find(pat)`: index of the first occurrence of `pat` as a
contiguous substring, if any. -/
def isPrefixOfB : List Char → List Char → Bool
  | [], _ => true
  | _ :: _, [] => false
  | a :: as, b :: bs => a = b && isPrefixOfB as bs

/-- Index of the first occurrence of `pat` in `s` (Rust `str::find`). -/
def findSub (pat : List Char) : List Char → Option Nat
  | [] => if isPrefixOfB pat [] then some 0 else none
  | c :: cs =>
    if isPrefixOfB pat (c :: cs) then some 0
    else (findSub pat cs).map (· + 1)

/-- Rust's `line.contains(pat)` (substring containment). -/
def strContains (s pat : String) : Bool :=
  (findSub pat.data s.data).isSome

/-- Rust's slice `&s[i..]`: `none` models the out-of-bounds panic. -/
def sliceFrom (i : Nat) (cs : List Char) : Option (List Char) :=
  if i ≤ cs.length then some (cs.drop i) else none

/-- Rust's `str::split(sep)` on a character list: always returns at least
one (possibly empty) piece; adjacent separators yield empty pieces. -/
def splitChar (sep : Char) : List Char → List (List Char)
  | [] => [[]]
  | c :: cs =>
    if c = sep then [] :: splitChar sep cs
    else
      match splitChar sep cs with
      | t :: ts => (c :: t) :: ts
      | [] => [[c]]

/-- The rest of a token iterator after consuming up to and including the
first token equal to `w` (Rust `parts.any(|x| x == w)` followed by the
remaining iterator state); `none` when no such token exists. -/
def afterTok (w : String) : List String → Option (List String)
  | [] => none
  | t :: ts => if t = w then some ts else afterTok w ts

/-- Rust's `str::split_once(sep)`: the pieces before and after the first
occurrence of `sep`. -/
def splitOnce (sep : Char) (s : String) : Option (String × String) :=
  match findSub [sep] s.data with
  | none => none
  | some i => some (String.mk (s.data.take i), String.mk (s.data.drop (i + 1)))

/-- The API surface of the external chess-rules crate (`shakmaty`) used by
`parse_epd`: FEN parsing (`Fen::from_str`), position construction
(`Fen::into_position`), SAN parsing (`San::from_str`), move resolution
(`San::to_move`), wire-notation rendering (`Move::to_uci`), and the SAN
`Display` implementation (used in the illegal-move error message). -/
structure ChessRules (F B S M : Type) where
  parseFen : String → Option F
  intoPosition : F → Option B
  parseSan : String → Option S
  sanToMove : S → B → Option M
  moveToUci : M → String
  renderSan : S → String

/-- A parsed EPD record (`struct EpdPosition` in the source). -/
structure EpdPosition where
  fen : String
  best_moves : List String
  id : String
  deriving DecidableEq

/-- Structured parse failures of `parse_epd`, one per `with_context` site. -/
inductive EpdError
  | invalidFen (fen : String)
  | noBestmove (line : String)
  | noEndOfBestmoves (line : String)
  | invalidSan (tok : String)
  | illegalSan (san : String) (fen : String)
  | noId (line : String)
  deriving DecidableEq

/-- Result of one `parse_epd` call: a structured error (`Err`), a record
(`Ok`), or a process abort (`panics`, from an out-of-bounds slice). -/
inductive ParseOutcome
  | panics
  | fails (e : EpdError)
  | succeeds (p : EpdPosition)
  deriving DecidableEq

/-- The FEN string built by `parse_epd`: the line's first four
whitespace-separated tokens with the fixed `"1 1"` counters appended,
joined by single spaces. -/
def fenStringOf (line : String) : String :=
  " ".intercalate ((splitWhitespace line).take 4 ++ ["1 1"])

/-- The `best_moves.iter().map(...).collect::<Result<_,_>>()` step: each
token is SAN-parsed, resolved against the board, and rendered in wire
notation; the first failure aborts with its error. -/
def convMoves {F B S M : Type} (R : ChessRules F B S M) (board : B)
    (fen_string : String) : List (List Char) → Except EpdError (List String)
  | [] => .ok []
  | t :: ts =>
    match R.parseSan (String.mk t) with
    | none => .error (.invalidSan (String.mk t))
    | some san =>
      match R.sanToMove san board with
      | none => .error (.illegalSan (R.renderSan san) fen_string)
      | some mv =>
        match convMoves R board fen_string ts with
        | .error e => .error e
        | .ok rest => .ok (R.moveToUci mv :: rest)

/-- `fn parse_epd(line: &str)`.  `counter` is the value this call read from
the global `COUNTER` (which is incremented once per call, before any
parsing).  Control flow follows the source line by line; `.panics` models
the two string slices `&line[best_move_idx + 3..]` and
`&line[id_idx + 4..]`, which abort when the start index is out of range. -/
def parse_epd {F B S M : Type} (R : ChessRules F B S M) (counter : Nat)
    (line : String) : ParseOutcome :=
  match R.parseFen (fenStringOf line) with
  | none => .fails (.invalidFen (fenStringOf line))
  | some fen =>
    match R.intoPosition fen with
    | none => .fails (.invalidFen (fenStringOf line))
    | some board =>
      match findSub "bm".data line.data with
      | none => .fails (.noBestmove line)
      | some bmIdx =>
        match sliceFrom (bmIdx + 3) line.data with
        | none => .panics
        | some bmTail =>
          match findSub [';'] bmTail with
          | none => .fails (.noEndOfBestmoves line)
          | some endIdx =>
            match convMoves R board (fenStringOf line) (splitChar ' ' (bmTail.take endIdx)) with
            | .error e => .fails e
            | .ok best_moves =>
              match findSub "id".data line.data with
              | some idIdx =>
                match sliceFrom (idIdx + 4) line.data with
                | none => .panics
                | some idTail =>
                  match (splitChar '\"' idTail).head? with
                  | none => .fails (.noId line)
                  | some s => .succeeds ⟨fenStringOf line, best_moves, String.mk s⟩
              | none => .succeeds ⟨fenStringOf line, best_moves, "position " ++ Nat.repr counter⟩

/-- Result of parsing the whole EPD text
(`epd_text.lines().map(parse_epd).collect::<Result<Vec<_>, _>>()`). -/
inductive ParseRes
  | panics
  | fails (e : EpdError)
  | ok (ps : List EpdPosition)
  deriving DecidableEq

/-- Fail-fast parse of all lines, threading the global counter; the second
component is the counter value after the run (the counter advances once per
`parse_epd` call, whatever its outcome; lines after the first failure are
never attempted because `collect` short-circuits). -/
def parseAll {F B S M : Type} (R : ChessRules F B S M) :
    Nat → List String → ParseRes × Nat
  | c, [] => (.ok [], c)
  | c, l :: ls =>
    match parse_epd R c l with
    | .panics => (.panics, c + 1)
    | .fails e => (.fails e, c + 1)
    | .succeeds p =>
      match parseAll R (c + 1) ls with
      | (.ok ps, c') => (.ok (p :: ps), c')
      | (r, c') => (r, c')

/-! ## The protocol driver (`main`) -/

/-- One produced Run Outcome (record id, chosen move in wire notation,
pass flag).  Elapsed wall-clock time is real time and is not modelled. -/
structure Outcome where
  id : String
  chosen : String
  passed : Bool
  deriving DecidableEq

/-- The configuration values `main` receives from the CLI layer that the
core actually consumes: the `--earlypass` flag, the `--option NAME=VALUE`
strings, and the final `go` parameter string (`cli.go` or its default
`"movetime 1000"`). -/
structure Config where
  earlypass : Bool
  options : List String
  goCmd : String

/-- Result of the inner drain loop after `stop` is sent: the stream suffix
after the first line containing `bestmove`, or `none` when the scripted
stream is exhausted first (the real program then blocks forever re-reading
an empty line at end of stream). -/
def drain : List String → Option (List String)
  | [] => none
  | l :: ls => if strContains l "bestmove" then some ls else drain ls

/-- Result of the per-record response-reading loop. -/
inductive LoopRes
  | panic
  | streamEnd
  | done (resp : String) (stops : Nat) (rest : List String)
  deriving DecidableEq

/-- The per-record response-reading loop of `main` over a scripted inbound
stream.  A line containing `bestmove` ends the loop with that line as the
engine response and no `stop` sent.  Otherwise, when `earlypass` is set and
the line's whitespace tokens contain `"pv"`, the token after the first
`"pv"` is the candidate: a missing candidate panics
(`expect("engine sent \"pv\" but no moves")`); a candidate in `bm` makes
the driver synthesize the response `"bestmove <choice>\n"`, send `stop`
once and drain to the terminal line.  Any other line is ignored. -/
def searchLoop (early : Bool) (bm : List String) : List String → LoopRes
  | [] => .streamEnd
  | l :: ls =>
    if strContains l "bestmove" then .done l 0 ls
    else if early then
      match afterTok "pv" (splitWhitespace l) with
      | none => searchLoop early bm ls
      | some [] => .panic
      | some (choice :: _) =>
        if bm.contains choice then
          match drain ls with
          | none => .streamEnd
          | some ls' => .done ("bestmove " ++ choice ++ "\n") 1 ls'
        else searchLoop early bm ls
    else searchLoop early bm ls

/-- Result of one whole per-record exchange. -/
inductive ExchangeRes
  | panic
  | hang
  | err (resp : String)
  | ok (stops : Nat) (chosen : String) (passed : Bool)
  deriving DecidableEq

/-- One whole per-record exchange: run the response loop, then take the
second whitespace token of the engine response
(`engine_response.split_whitespace().nth(1)`) as the chosen move — a
missing second token aborts the run with the response-parse error — and
recompute `passed` by membership in `best_moves`. -/
def runExchange (early : Bool) (bm : List String) (lines : List String) :
    ExchangeRes :=
  match searchLoop early bm lines with
  | .panic => .panic
  | .streamEnd => .hang
  | .done resp stops _ =>
    match (splitWhitespace resp).get? 1 with
    | none => .err resp
    | some mv => .ok stops mv (bm.contains mv)

/-- The initialization read loop: discard inbound lines until one contains
`readyok`; returns the remaining stream, or `none` when the stream is
exhausted first. -/
def handshake : List String → Option (List String)
  | [] => none
  | l :: ls => if strContains l "readyok" then some ls else handshake ls

/-- The option loop: split each `NAME=VALUE` string on the first `=` and
emit a `setoption` command; a string without `=` aborts (after the
commands for the earlier options were already sent). -/
def optCmds : List String → List String × Option String
  | [] => ([], none)
  | o :: os =>
    match splitOnce '=' o with
    | none => ([], some o)
    | some (n, v) =>
      match optCmds os with
      | (cs, err) => (("setoption name " ++ n ++ " value " ++ v ++ "\n") :: cs, err)

/-- Errors that make `main` return `Err` (fatal, non-zero exit). -/
inductive RunError
  | parse (e : EpdError)
  | badOption (o : String)
  | badResponse (r : String)
  deriving DecidableEq

/-- Result of the per-record testing loop. -/
inductive RecRes
  | panics
  | hangs
  | fails (r : String)
  | ok (outs : List Outcome) (successes : Nat)
  deriving DecidableEq

/-- The testing loop of `main`: for each record send `ucinewgame`, the
position and `go`, run the exchange, record the outcome and bump the
success counter on a pass.  The first component is the list of commands
written to the engine, in order (`stop` is the only command written from
inside the response loop). -/
def runRecords (early : Bool) (go : String) :
    List EpdPosition → List String → List Outcome → Nat → List String × RecRes
  | [], _, outs, succ => ([], .ok outs succ)
  | epd :: rest, stream, outs, succ =>
    let pre := ["ucinewgame\n", "position fen " ++ epd.fen ++ "\n", "go " ++ go ++ "\n"]
    match searchLoop early epd.best_moves stream with
    | .panic => (pre, .panics)
    | .streamEnd => (pre, .hangs)
    | .done resp stops rest' =>
      let cmds := pre ++ (if stops = 1 then ["stop\n"] else [])
      match (splitWhitespace resp).get? 1 with
      | none => (cmds, .fails resp)
      | some mv =>
        let passed := epd.best_moves.contains mv
        match runRecords early go rest rest' (outs ++ [⟨epd.id, mv, passed⟩])
            (if passed then succ + 1 else succ) with
        | (cmds', res) => (cmds ++ cmds', res)

/-- Result of one whole run of `main`. -/
inductive RunRes
  | panics
  | hangs
  | fails (e : RunError)
  | ok (outs : List Outcome) (successes : Nat) (total : Nat)
  deriving DecidableEq

/-- The whole of `main` after the CLI/IO wrappers: parse every EPD line
(fail-fast, before the engine is even booted), handshake, set options,
then run the testing loop; the final summary reports the success counter
and `n = positions.len()`.  The first component is the full list of
commands written to the engine.  `.panics` covers the two in-loop panics
and the `max().unwrap()` on an empty position list; `.hangs` covers the
scripted stream running dry (the real program then blocks forever). -/
def runMain {F B S M : Type} (R : ChessRules F B S M) (cfg : Config)
    (epdLines : List String) (stream : List String) : List String × RunRes :=
  match (parseAll R 0 epdLines).1 with
  | .panics => ([], .panics)
  | .fails e => ([], .fails (.parse e))
  | .ok ps =>
    let boot := ["uci\n", "isready\n"]
    match handshake stream with
    | none => (boot, .hangs)
    | some stream1 =>
      match optCmds cfg.options with
      | (cs, some o) => (boot ++ cs, .fails (.badOption o))
      | (cs, none) =>
        if ps.isEmpty then (boot ++ cs, .panics)
        else
          match runRecords cfg.earlypass cfg.goCmd ps stream1 [] 0 with
          | (cmds, .panics) => (boot ++ cs ++ cmds, .panics)
          | (cmds, .hangs) => (boot ++ cs ++ cmds, .hangs)
          | (cmds, .fails r) => (boot ++ cs ++ cmds, .fails (.badResponse r))
          | (cmds, .ok outs succ) => (boot ++ cs ++ cmds, .ok outs succ ps.length)

/-! ## A concrete rules instance for witnesses

A small executable instance of the `ChessRules` interface, rich enough to
exercise every code path of `parse_epd` on the concrete lines used by the
witnesses: it accepts exactly one board (a bare-kings FEN), knows the SAN
token `e4` (resolving to wire move `e2e4`) and the SAN-shaped token `zz`
(parseable but illegal), and renders SAN back verbatim. -/

def toyFen : String := "k7/8/8/8/8/8/8/7K w - - 1 1"

def toyRules : ChessRules String String String String :=
  ⟨fun s => if s = toyFen then some s else none,
   fun f => some f,
   fun t => if t = "e4" ∨ t = "zz" then some t else none,
   fun s _ => if s = "e4" then some "e2e4" else none,
   fun m => m,
   fun s => s⟩

/-! ## Lemmas about whitespace splitting -/

lemma splitWSAux_nonws (c : Char) (hc : c.isWhitespace = false)
    (cs acc : List Char) : splitWSAux (c :: cs) acc = splitWSAux cs (c :: acc) := by
  simp [splitWSAux, hc]

lemma splitWSAux_ws (c : Char) (hc : c.isWhitespace = true)
    (cs acc : List Char) (ha : acc.isEmpty = false) :
    splitWSAux (c :: cs) acc = acc.reverse :: splitWSAux cs [] := by
  simp [splitWSAux, hc, ha]

/-- Every token produced by `splitWSAux` is nonempty and free of
whitespace characters. -/
lemma splitWSAux_tokens (cs : List Char) : ∀ (acc : List Char),
    (∀ c ∈ acc, c.isWhitespace = false) →
    ∀ t ∈ splitWSAux cs acc, t ≠ [] ∧ ∀ c ∈ t, c.isWhitespace = false := by
  induction cs with
  | nil =>
    intro acc hacc t ht
    cases acc with
    | nil => simp [splitWSAux] at ht
    | cons a as =>
      simp [splitWSAux] at ht
      subst ht
      refine ⟨by simp, ?_⟩
      intro c hc
      exact hacc c (List.mem_reverse.mp (by rw [List.reverse_cons]; exact hc))
  | cons c cs ih =>
    intro acc hacc t ht
    by_cases hw : c.isWhitespace = true
    · cases acc with
      | nil =>
        rw [show splitWSAux (c :: cs) [] = splitWSAux cs [] from by
          simp [splitWSAux, hw]] at ht
        exact ih [] (by simp) t ht
      | cons a as =>
        rw [splitWSAux_ws c hw cs (a :: as) rfl] at ht
        rcases List.mem_cons.mp ht with h | h
        · subst h
          refine ⟨by simp, ?_⟩
          intro x hx
          exact hacc x (List.mem_reverse.mp hx)
        · exact ih [] (by simp) t h
    · rw [splitWSAux_nonws c (by simpa using hw) cs acc] at ht
      refine ih (c :: acc) ?_ t ht
      intro x hx
      rcases List.mem_cons.mp hx with h | h
      · subst h; simpa using hw
      · exact hacc x h

/-- Every token of `splitWhitespace` is a nonempty whitespace-free word. -/
lemma splitWhitespace_tokens (s : String) :
    ∀ t ∈ splitWhitespace s, t.data ≠ [] ∧ ∀ c ∈ t.data, c.isWhitespace = false := by
  intro t ht
  simp only [splitWhitespace, List.mem_map] at ht
  obtain ⟨l, hl, rfl⟩ := ht
  exact splitWSAux_tokens s.data [] (by simp) l hl

lemma afterTok_subset (w : String) :
    ∀ (ts rest : List String), afterTok w ts = some rest → ∀ x ∈ rest, x ∈ ts := by
  intro ts
  induction ts with
  | nil => intro rest h; simp [afterTok] at h
  | cons t ts ih =>
    intro rest h x hx
    unfold afterTok at h
    by_cases he : t = w
    · rw [if_pos he] at h
      injection h with h
      subst h
      exact List.mem_cons_of_mem _ hx
    · rw [if_neg he] at h
      exact List.mem_cons_of_mem _ (ih rest h x hx)

lemma data_append (a b : String) : (a ++ b).data = a.data ++ b.data := by
  cases a; cases b; rfl

/-- Splitting a whitespace-free token followed by a newline. -/
lemma splitWSAux_tok_nl (rest : List Char) : ∀ (tok acc : List Char),
    (∀ c ∈ tok, c.isWhitespace = false) → (acc = [] → tok ≠ []) →
    splitWSAux (tok ++ '\n' :: rest) acc =
      (acc.reverse ++ tok) :: splitWSAux rest [] := by
  intro tok
  induction tok with
  | nil =>
    intro acc hws hne
    cases acc with
    | nil => exact absurd rfl (hne rfl)
    | cons a as =>
      simp only [List.nil_append]
      rw [splitWSAux_ws '\n' (by decide) rest (a :: as) rfl]
      simp
  | cons c ts ih =>
    intro acc hws hne
    have hc : c.isWhitespace = false := hws c (List.mem_cons_self _ _)
    simp only [List.cons_append]
    rw [splitWSAux_nonws c hc, ih (c :: acc) (fun x hx => hws x (List.mem_cons_of_mem _ hx)) (by simp)]
    simp [List.append_assoc]

/-- The synthesized early-acceptance response `"bestmove <choice>\n"` splits
into exactly the two tokens `bestmove` and the choice. -/
lemma splitWhitespace_bestmove (choice : String)
    (h1 : choice.data ≠ []) (h2 : ∀ c ∈ choice.data, c.isWhitespace = false) :
    splitWhitespace ("bestmove " ++ choice ++ "\n") = ["bestmove", choice] := by
  unfold splitWhitespace
  have hd : ("bestmove " ++ choice ++ "\n").data =
      'b' :: 'e' :: 's' :: 't' :: 'm' :: 'o' :: 'v' :: 'e' :: ' ' ::
        (choice.data ++ ['\n']) := by
    rw [data_append, data_append]
    rfl
  rw [hd]
  rw [splitWSAux_nonws 'b' (by decide), splitWSAux_nonws 'e' (by decide),
    splitWSAux_nonws 's' (by decide), splitWSAux_nonws 't' (by decide),
    splitWSAux_nonws 'm' (by decide), splitWSAux_nonws 'o' (by decide),
    splitWSAux_nonws 'v' (by decide), splitWSAux_nonws 'e' (by decide)]
  rw [splitWSAux_ws ' ' (by decide) _ _ (by decide)]
  have : choice.data ++ ['\n'] = choice.data ++ '\n' :: [] := rfl
  rw [this, splitWSAux_tok_nl [] choice.data [] h2 (fun _ => h1)]
  simp [splitWSAux]

/-! ## Lemmas about the response-reading loop -/

/-- A line the early-acceptance loop reads and then ignores: it contains no
`bestmove`, and its `pv` inspection neither panics nor finds an accepted
candidate. -/
def skipsLine (bm : List String) (l : String) : Bool :=
  !(strContains l "bestmove") &&
  (match afterTok "pv" (splitWhitespace l) with
   | none => true
   | some [] => false
   | some (c :: _) => !(bm.contains c))

/-- One-step unfolding of `searchLoop` on a nonempty stream. -/
lemma searchLoop_cons (early : Bool) (bm : List String) (l : String)
    (ls : List String) :
    searchLoop early bm (l :: ls) =
      (if strContains l "bestmove" then .done l 0 ls
       else if early then
         match afterTok "pv" (splitWhitespace l) with
         | none => searchLoop early bm ls
         | some [] => .panic
         | some (choice :: _) =>
           if bm.contains choice then
             match drain ls with
             | none => .streamEnd
             | some ls' => .done ("bestmove " ++ choice ++ "\n") 1 ls'
           else searchLoop early bm ls
       else searchLoop early bm ls) := rfl

lemma searchLoop_skip_early (bm : List String) (l : String) (ls : List String)
    (h : skipsLine bm l = true) :
    searchLoop true bm (l :: ls) = searchLoop true bm ls := by
  unfold skipsLine at h
  rw [Bool.and_eq_true] at h
  obtain ⟨h1, h2⟩ := h
  have h1' : strContains l "bestmove" = false := by simpa using h1
  rw [searchLoop_cons, h1']
  simp only [Bool.false_eq_true, if_false, if_true]
  cases haf : afterTok "pv" (splitWhitespace l) with
  | none => rfl
  | some r =>
    cases r with
    | nil => rw [haf] at h2; simp at h2
    | cons c cr =>
      rw [haf] at h2
      have hc : c ∉ bm := by simpa using h2
      simp [hc]

/-- `runExchange` after a loop that terminated with response `resp`. -/
lemma runExchange_done (early : Bool) (bm : List String) (lines : List String)
    (resp : String) (stops : Nat) (rest : List String)
    (h : searchLoop early bm lines = .done resp stops rest) :
    runExchange early bm lines =
      (match (splitWhitespace resp).get? 1 with
       | none => .err resp
       | some mv => .ok stops mv (bm.contains mv)) := by
  unfold runExchange
  rw [h]

lemma searchLoop_skip_noearly (bm : List String) (l : String) (ls : List String)
    (h : strContains l "bestmove" = false) :
    searchLoop false bm (l :: ls) = searchLoop false bm ls := by
  rw [searchLoop_cons, h]
  simp

/-- C1, as stated, is false: the claim's hypothesis can hold — here the line
`info pv e2e4` carries the pv marker followed by the accepted move `e2e4`
and arrives before the terminal line `bestmove d2d4` — while an earlier
non-terminal line ending in the bare `pv` marker makes the driver panic
before it ever reaches that line, so no stop command and no outcome are
produced. -/
theorem C1_counterexample :
    strContains "info pv" "bestmove" = false ∧
    strContains "info pv e2e4" "bestmove" = false ∧
    afterTok "pv" (splitWhitespace "info pv e2e4") = some ["e2e4"] ∧
    ("e2e4" ∈ (["e2e4"] : List String)) ∧
    runExchange true ["e2e4"] ["info pv", "info pv e2e4", "bestmove d2d4"] = .panic := by
  decide

/-- C1 (amended): with early acceptance on, if the inbound lines before the
terminal best-move line consist of lines the loop ignores, followed by a
non-terminal line whose first `pv` token is immediately followed by a move
in `accepted_moves`, and a line containing the best-move token eventually
arrives, then the driver sends stop exactly once, drains to the terminal
line, and the outcome records that pv move as chosen with `passed = true`
— whatever moves the drained lines (including the terminal one) name. -/
theorem C1_amended (bm : List String) (pre : List String) (l : String)
    (post post' : List String) (choice : String) (tl : List String)
    (hpre : ∀ p ∈ pre, skipsLine bm p = true)
    (hl : strContains l "bestmove" = false)
    (haf : afterTok "pv" (splitWhitespace l) = some (choice :: tl))
    (hmem : bm.contains choice = true)
    (hdrain : drain post = some post') :
    runExchange true bm (pre ++ l :: post) = .ok 1 choice true := by
  induction pre with
  | nil =>
    simp only [List.nil_append]
    have hloop : searchLoop true bm (l :: post) =
        .done ("bestmove " ++ choice ++ "\n") 1 post' := by
      rw [searchLoop_cons, hl]
      simp only [Bool.false_eq_true, if_false, if_true, haf, hmem, hdrain]
    have hchoice : choice ∈ splitWhitespace l :=
      afterTok_subset "pv" (splitWhitespace l) (choice :: tl) haf choice
        (List.mem_cons_self _ _)
    obtain ⟨hne, hws⟩ := splitWhitespace_tokens l choice hchoice
    have hsplit := splitWhitespace_bestmove choice hne hws
    rw [runExchange_done true bm (l :: post) _ 1 post' hloop, hsplit]
    show ExchangeRes.ok 1 choice (bm.contains choice) = ExchangeRes.ok 1 choice true
    rw [hmem]
  | cons p ps ih =>
    simp only [List.cons_append]
    unfold runExchange
    rw [searchLoop_skip_early bm p _ (hpre p (List.mem_cons_self _ _))]
    exact ih (fun q hq => hpre q (List.mem_cons_of_mem _ hq))

theorem C1_amended_witness :
    runExchange true ["e2e4"]
      (["info depth 1"] ++ "info depth 5 pv e2e4 e7e5" ::
        ["info depth 6", "bestmove d2d4"]) = .ok 1 "e2e4" true :=
  C1_amended ["e2e4"] ["info depth 1"] "info depth 5 pv e2e4 e7e5"
    ["info depth 6", "bestmove d2d4"] [] "e2e4" ["e7e5"]
    (by decide) (by decide) (by decide) (by decide) (by decide)

/-- C2, as stated, is false on lines where the `bestmove` substring is not
the first token: the code takes the *second whitespace token* of the
terminal line (`split_whitespace().nth(1)`), not the token following the
best-move token.  On `info bestmove e2e4` the chosen move becomes the
literal word `bestmove`, not `e2e4`. -/
theorem C2_counterexample :
    strContains "info bestmove e2e4" "bestmove" = true ∧
    afterTok "bestmove" (splitWhitespace "info bestmove e2e4") = some ["e2e4"] ∧
    runExchange false ["e2e4"] ["info bestmove e2e4"] = .ok 0 "bestmove" false ∧
    ("bestmove" : String) ≠ "e2e4" := by
  decide

/-- C2 (amended): with early acceptance off, the loop ends at the first
inbound line containing the best-move token — pv lines are never consulted
(the preceding lines are arbitrary non-terminal lines, including ones that
would panic or match under early acceptance) — no stop is sent, and the
chosen move is exactly the *second whitespace-separated token* of that
terminal line (the run aborts if there is none). -/
theorem C2_amended (bm : List String) (pre : List String) (l : String)
    (post : List String)
    (hpre : ∀ p ∈ pre, strContains p "bestmove" = false)
    (hl : strContains l "bestmove" = true) :
    searchLoop false bm (pre ++ l :: post) = .done l 0 post ∧
    runExchange false bm (pre ++ l :: post) =
      (match (splitWhitespace l).get? 1 with
       | none => .err l
       | some mv => .ok 0 mv (bm.contains mv)) := by
  have hloop : searchLoop false bm (pre ++ l :: post) = .done l 0 post := by
    induction pre with
    | nil =>
      rw [List.nil_append, searchLoop_cons, hl]
      simp
    | cons p ps ih =>
      rw [List.cons_append,
        searchLoop_skip_noearly bm p _ (hpre p (List.mem_cons_self _ _))]
      exact ih (fun q hq => hpre q (List.mem_cons_of_mem _ hq))
  exact ⟨hloop, runExchange_done false bm _ l 0 post hloop⟩

theorem C2_amended_witness :
    searchLoop false ["g1f3"]
      (["info string hi pv"] ++ "bestmove g1f3 ponder g8f6" :: []) =
      .done "bestmove g1f3 ponder g8f6" 0 [] ∧
    runExchange false ["g1f3"]
      (["info string hi pv"] ++ "bestmove g1f3 ponder g8f6" :: []) =
      (match (splitWhitespace "bestmove g1f3 ponder g8f6").get? 1 with
       | none => .err "bestmove g1f3 ponder g8f6"
       | some mv => .ok 0 mv (["g1f3"].contains mv)) :=
  C2_amended ["g1f3"] ["info string hi pv"] "bestmove g1f3 ponder g8f6" []
    (by decide) (by decide)

/-- C9, as stated, is false: on `info pv pv` the last whitespace token *is*
the pv marker, yet the driver does not panic — `parts.any` only consumes up
to the first `pv`, so the second `pv` is taken as the candidate move,
fails the membership test, and the line is simply skipped. -/
theorem C9_counterexample :
    (splitWhitespace "info pv pv").getLast? = some "pv" ∧
    strContains "info pv pv" "bestmove" = false ∧
    runExchange true ["a1a2"] ["info pv pv", "bestmove b1b2"] =
      .ok 0 "b1b2" false := by
  decide

/-- C9 (amended): with early acceptance on, reading a non-best-move line in
which no token follows the *first* `pv` token (i.e. its first `pv` token is
its final token) makes the driver panic — `expect` aborts the process —
rather than return a structured error or skip the line. -/
theorem C9_amended (bm : List String) (l : String) (rest : List String)
    (hl : strContains l "bestmove" = false)
    (haf : afterTok "pv" (splitWhitespace l) = some []) :
    runExchange true bm (l :: rest) = .panic := by
  unfold runExchange searchLoop
  rw [hl]
  simp [haf]

theorem C9_amended_witness :
    runExchange true [] ("info pv" :: ["bestmove a1b1"]) = .panic :=
  C9_amended [] "info pv" ["bestmove a1b1"] (by decide) (by decide)

/-! ## Lemmas about `parse_epd` -/

lemma splitChar_ne_nil (sep : Char) (cs : List Char) : splitChar sep cs ≠ [] := by
  induction cs with
  | nil => simp [splitChar]
  | cons c cs ih =>
    unfold splitChar
    by_cases h : c = sep
    · simp [h]
    · rw [if_neg h]
      cases hs : splitChar sep cs with
      | nil => exact absurd hs ih
      | cons t ts => simp

lemma splitChar_no_sep (sep : Char) (cs : List Char) (h : sep ∉ cs) :
    splitChar sep cs = [cs] := by
  induction cs with
  | nil => rfl
  | cons c cs ih =>
    have hc : ¬c = sep := fun he => h (he ▸ List.mem_cons_self _ _)
    have hrest := ih (fun hm => h (List.mem_cons_of_mem _ hm))
    unfold splitChar
    rw [if_neg hc, hrest]

/-- Converting a move list whose first failing token parses as SAN but is
illegal on the board stops at that token with the illegal-move error. -/
lemma convMoves_illegal {F B S M : Type} (R : ChessRules F B S M) (b : B)
    (fs : String) (tok : List Char) (san : S) (ts2 : List (List Char))
    (h8 : R.parseSan (String.mk tok) = some san)
    (h9 : R.sanToMove san b = none) :
    ∀ ts1 : List (List Char),
      ts1.all (fun t => ((R.parseSan (String.mk t)).bind
        (fun s => (R.sanToMove s b).map (fun m => R.moveToUci m))).isSome) = true →
      convMoves R b fs (ts1 ++ tok :: ts2) =
        .error (.illegalSan (R.renderSan san) fs) := by
  intro ts1
  induction ts1 with
  | nil =>
    intro _
    simp [convMoves, h8, h9]
  | cons t ts ih =>
    intro h7
    rw [List.all_cons, Bool.and_eq_true] at h7
    obtain ⟨ht, hts⟩ := h7
    cases hs : R.parseSan (String.mk t) with
    | none => simp [hs] at ht
    | some s =>
      cases hm : R.sanToMove s b with
      | none => simp [hs, hm] at ht
      | some m => simp [convMoves, hs, hm, ih hts]

/-- C4, as stated, is false: a blank line contains no `bm` marker, yet it
fails with the malformed-board condition (`invalid fen: 1 1`), because the
FEN prefix is checked *before* the best-move marker is looked for. -/
theorem C4_counterexample :
    findSub "bm".data ("" : String).data = none ∧
    parse_epd toyRules 0 "" = .fails (.invalidFen "1 1") ∧
    parse_epd toyRules 0 "" ≠ .fails (.noBestmove "") := by
  decide

/-- C4 (amended): a line with no `bm` marker always fails to parse; it
fails with the missing-best-move condition exactly when its four-token
board prefix (with the fixed counters) parses into a legal position
(the iff conjunct), and with the malformed-board condition otherwise
(the first conjunct) — in particular blank lines fail with malformed
board, not missing best-move. -/
theorem C4_amended {F B S M : Type} (R : ChessRules F B S M) (c : Nat)
    (line : String) (hbm : findSub "bm".data line.data = none) :
    ((R.parseFen (fenStringOf line)).bind R.intoPosition = none →
      parse_epd R c line = .fails (.invalidFen (fenStringOf line))) ∧
    (∀ f b, R.parseFen (fenStringOf line) = some f →
      R.intoPosition f = some b →
      parse_epd R c line = .fails (.noBestmove line)) ∧
    (∃ e, parse_epd R c line = .fails e) ∧
    (parse_epd R c line = .fails (.noBestmove line) ↔
      ∃ f b, R.parseFen (fenStringOf line) = some f ∧
        R.intoPosition f = some b) := by
  cases hf : R.parseFen (fenStringOf line) with
  | none =>
    have hmain : parse_epd R c line = .fails (.invalidFen (fenStringOf line)) := by
      simp [parse_epd, hf]
    refine ⟨fun _ => hmain, ?_, ⟨_, hmain⟩, ?_, ?_⟩
    · intro f b hf2 _
      cases hf2
    · intro h
      rw [hmain] at h
      simp at h
    · rintro ⟨f, b, hf2, _⟩
      cases hf2
  | some fen =>
    cases hp : R.intoPosition fen with
    | none =>
      have hmain : parse_epd R c line = .fails (.invalidFen (fenStringOf line)) := by
        simp [parse_epd, hf, hp]
      refine ⟨fun _ => hmain, ?_, ⟨_, hmain⟩, ?_, ?_⟩
      · intro f b hf2 hp2
        injection hf2 with hf2
        subst hf2
        rw [hp] at hp2
        cases hp2
      · intro h
        rw [hmain] at h
        simp at h
      · rintro ⟨f, b, hf2, hp2⟩
        injection hf2 with hf2
        subst hf2
        rw [hp] at hp2
        cases hp2
    | some board =>
      have hmain : parse_epd R c line = .fails (.noBestmove line) := by
        simp [parse_epd, hf, hp, hbm]
      refine ⟨?_, fun _ _ _ _ => hmain, ⟨_, hmain⟩,
        fun _ => ⟨fen, board, rfl, hp⟩, fun _ => hmain⟩
      intro hcomp
      have h2 : R.intoPosition fen = none := hcomp
      rw [hp] at h2
      cases h2

theorem C4_amended_witness :
    ((toyRules.parseFen (fenStringOf "k7/8/8/8/8/8/8/7K w - - nothing")).bind
        toyRules.intoPosition = none →
      parse_epd toyRules 0 "k7/8/8/8/8/8/8/7K w - - nothing" =
        .fails (.invalidFen (fenStringOf "k7/8/8/8/8/8/8/7K w - - nothing"))) ∧
    (∀ f b, toyRules.parseFen (fenStringOf "k7/8/8/8/8/8/8/7K w - - nothing") = some f →
      toyRules.intoPosition f = some b →
      parse_epd toyRules 0 "k7/8/8/8/8/8/8/7K w - - nothing" =
        .fails (.noBestmove "k7/8/8/8/8/8/8/7K w - - nothing")) ∧
    (∃ e, parse_epd toyRules 0 "k7/8/8/8/8/8/8/7K w - - nothing" = .fails e) ∧
    (parse_epd toyRules 0 "k7/8/8/8/8/8/8/7K w - - nothing" =
        .fails (.noBestmove "k7/8/8/8/8/8/8/7K w - - nothing") ↔
      ∃ f b, toyRules.parseFen (fenStringOf "k7/8/8/8/8/8/8/7K w - - nothing") = some f ∧
        toyRules.intoPosition f = some b) :=
  C4_amended toyRules 0 "k7/8/8/8/8/8/8/7K w - - nothing" (by decide)

/-- C5: when the bounded best-move list contains a token that parses as a
SAN move but is illegal in the parsed board state (all earlier tokens being
convertible), the whole record fails with the illegal-move error carrying
that token (via the library's SAN rendering, hypothesis `h10`) and the fen
string; in particular no record is produced, so the token is neither
dropped nor substituted. -/
theorem C5_confirmed {F B S M : Type} (R : ChessRules F B S M) (c : Nat)
    (line : String) (f : F) (b : B) (i e : Nat) (bmTail : List Char)
    (ts1 : List (List Char)) (tok : List Char) (ts2 : List (List Char)) (san : S)
    (h1 : R.parseFen (fenStringOf line) = some f)
    (h2 : R.intoPosition f = some b)
    (h3 : findSub "bm".data line.data = some i)
    (h4 : sliceFrom (i + 3) line.data = some bmTail)
    (h5 : findSub [';'] bmTail = some e)
    (h6 : splitChar ' ' (bmTail.take e) = ts1 ++ tok :: ts2)
    (h7 : ts1.all (fun t => ((R.parseSan (String.mk t)).bind
      (fun s => (R.sanToMove s b).map (fun m => R.moveToUci m))).isSome) = true)
    (h8 : R.parseSan (String.mk tok) = some san)
    (h9 : R.sanToMove san b = none)
    (h10 : R.renderSan san = String.mk tok) :
    parse_epd R c line = .fails (.illegalSan (String.mk tok) (fenStringOf line)) ∧
    ∀ p, parse_epd R c line ≠ .succeeds p := by
  have hconv := convMoves_illegal R b (fenStringOf line) tok san ts2 h8 h9 ts1 h7
  have hmain : parse_epd R c line =
      .fails (.illegalSan (String.mk tok) (fenStringOf line)) := by
    unfold parse_epd
    rw [← h10]
    simp [h1, h2, h3, h4, h5, h6, hconv]
  exact ⟨hmain, fun p hp => by rw [hmain] at hp; cases hp⟩

theorem C5_confirmed_witness :
    parse_epd toyRules 0 "k7/8/8/8/8/8/8/7K w - - bm e4 zz;" =
      .fails (.illegalSan "zz" toyFen) ∧
    ∀ p, parse_epd toyRules 0 "k7/8/8/8/8/8/8/7K w - - bm e4 zz;" ≠ .succeeds p :=
  C5_confirmed toyRules 0 "k7/8/8/8/8/8/8/7K w - - bm e4 zz;" toyFen toyFen
    24 5 ("e4 zz;".data) [['e', '4']] ['z', 'z'] [] "zz"
    (by decide) (by decide) (by decide) (by decide) (by decide) (by decide)
    (by decide) (by decide) (by decide) (by decide)

/-- C6: the record's board string is exactly the first four
whitespace-separated tokens of the line with the fixed `"1 1"` counters
appended (spelled out in the last conjunct); a record is only produced
when that string parses into a legal position, and its `fen` field is that
string — contrapositively, parsing cannot succeed when the prefix is
syntactically invalid or the position is not rule-legal, and in that case
it fails with the malformed-board error. -/
theorem C6_confirmed {F B S M : Type} (R : ChessRules F B S M) (c : Nat)
    (line : String) :
    ((R.parseFen (fenStringOf line)).bind R.intoPosition = none →
      parse_epd R c line = .fails (.invalidFen (fenStringOf line))) ∧
    (∀ p, parse_epd R c line = .succeeds p →
      p.fen = fenStringOf line ∧
      ∃ f b, R.parseFen (fenStringOf line) = some f ∧ R.intoPosition f = some b) ∧
    fenStringOf line = " ".intercalate ((splitWhitespace line).take 4 ++ ["1 1"]) := by
  refine ⟨?_, ?_, rfl⟩
  · intro hb
    unfold parse_epd
    cases hf : R.parseFen (fenStringOf line) with
    | none => simp [hf]
    | some fen =>
      rw [hf] at hb
      have hb' : R.intoPosition fen = none := hb
      simp [hf, hb']
  · intro p hp
    cases hf : R.parseFen (fenStringOf line) with
    | none => simp [parse_epd, hf] at hp
    | some fen =>
      cases hb : R.intoPosition fen with
      | none => simp [parse_epd, hf, hb] at hp
      | some b =>
        simp only [parse_epd, hf, hb] at hp
        refine ⟨?_, fen, b, rfl, hb⟩
        iterate 8 (all_goals try split at hp)
        all_goals cases hp
        all_goals rfl

theorem C6_confirmed_witness :
    parse_epd toyRules 0 "bm e4;" = .fails (.invalidFen (fenStringOf "bm e4;")) ∧
    (⟨toyFen, ["e2e4"], "wit"⟩ : EpdPosition).fen =
      fenStringOf "k7/8/8/8/8/8/8/7K w - - bm e4; id \"wit\";" :=
  ⟨(C6_confirmed toyRules 0 "bm e4;").1 (by decide),
   ((C6_confirmed toyRules 0 "k7/8/8/8/8/8/8/7K w - - bm e4; id \"wit\";").2.1
     ⟨toyFen, ["e2e4"], "wit"⟩ (by decide)).1⟩

lemma sliceFrom_some (i : Nat) (cs t : List Char) (h : sliceFrom i cs = some t) :
    t = cs.drop i := by
  unfold sliceFrom at h
  split at h
  · injection h with h
    exact h.symm
  · cases h

/-- Move-list conversion only ever produces the invalid-SAN or
illegal-move errors, never the no-id error. -/
lemma convMoves_no_noId {F B S M : Type} (R : ChessRules F B S M) (b : B)
    (fs : String) (s : String) :
    ∀ ts, convMoves R b fs ts ≠ .error (.noId s) := by
  intro ts
  induction ts with
  | nil => simp [convMoves]
  | cons t ts ih =>
    intro h
    cases hs : R.parseSan (String.mk t) with
    | none => simp [convMoves, hs] at h
    | some sn =>
      cases hm : R.sanToMove sn b with
      | none => simp [convMoves, hs, hm] at h
      | some m =>
        simp only [convMoves, hs, hm] at h
        cases hc : convMoves R b fs ts with
        | error e =>
          rw [hc] at h
          cases h
          exact ih hc
        | ok r =>
          rw [hc] at h
          cases h

/-- The `no id found` error branch of `parse_epd` is dead code:
`split('"')` always yields at least one piece, so its first element always
exists. -/
lemma noId_unreachable {F B S M : Type} (R : ChessRules F B S M) (c : Nat)
    (l s : String) : parse_epd R c l ≠ .fails (.noId s) := by
  intro h
  cases hf : R.parseFen (fenStringOf l) with
  | none => simp [parse_epd, hf] at h
  | some fen =>
  cases hb : R.intoPosition fen with
  | none => simp [parse_epd, hf, hb] at h
  | some board =>
  cases hbm : findSub "bm".data l.data with
  | none => simp [parse_epd, hf, hb, hbm] at h
  | some bmIdx =>
  cases hsl : sliceFrom (bmIdx + 3) l.data with
  | none => simp [parse_epd, hf, hb, hbm, hsl] at h
  | some bmTail =>
  cases hsc : findSub [';'] bmTail with
  | none => simp [parse_epd, hf, hb, hbm, hsl, hsc] at h
  | some endIdx =>
  cases hcv : convMoves R board (fenStringOf l) (splitChar ' ' (bmTail.take endIdx)) with
  | error e =>
    simp only [parse_epd, hf, hb, hbm, hsl, hsc, hcv] at h
    cases h
    exact convMoves_no_noId R board (fenStringOf l) s _ hcv
  | ok bms =>
  cases hid : findSub "id".data l.data with
  | none => simp [parse_epd, hf, hb, hbm, hsl, hsc, hcv, hid] at h
  | some idIdx =>
  cases hsl2 : sliceFrom (idIdx + 4) l.data with
  | none => simp [parse_epd, hf, hb, hbm, hsl, hsc, hcv, hid, hsl2] at h
  | some idTail =>
    cases hh : (splitChar '\"' idTail).head? with
    | none =>
      cases hsp : splitChar '\"' idTail with
      | nil => exact splitChar_ne_nil '\"' idTail hsp
      | cons a as => rw [hsp] at hh; cases hh
    | some str =>
      simp [parse_epd, hf, hb, hbm, hsl, hsc, hcv, hid, hsl2, hh] at h

/-- C10, as stated, is false: `id` does occur in this line, yet id
extraction does fail — the line ends fewer than four characters past the
marker, so the slice `&line[id_idx + 4..]` is out of bounds and the parse
panics instead of producing a record. -/
theorem C10_counterexample :
    findSub "id".data ("k7/8/8/8/8/8/8/7K w - - bm e4; id").data = some 31 ∧
    parse_epd toyRules 0 "k7/8/8/8/8/8/8/7K w - - bm e4; id" = .panics := by
  decide

/-- C10 (amended): the `no id found` error branch is unreachable, and on
any successful parse in which the first `id` occurrence is followed by no
quote character, the extracted id is the entire remainder of the line
starting four characters past the marker's position; but when the line
ends fewer than four characters past the marker, the parse panics on the
out-of-bounds slice instead (see the counterexample). -/
theorem C10_amended {F B S M : Type} (R : ChessRules F B S M) (c : Nat)
    (line : String) (p : EpdPosition) (idIdx : Nat)
    (hp : parse_epd R c line = .succeeds p)
    (hid : findSub "id".data line.data = some idIdx)
    (hq : '\"' ∉ line.data.drop (idIdx + 4)) :
    p.id = String.mk (line.data.drop (idIdx + 4)) ∧
    ∀ (l s : String), parse_epd R c l ≠ .fails (.noId s) := by
  refine ⟨?_, fun l s => noId_unreachable R c l s⟩
  cases hf : R.parseFen (fenStringOf line) with
  | none => simp [parse_epd, hf] at hp
  | some fen =>
  cases hb : R.intoPosition fen with
  | none => simp [parse_epd, hf, hb] at hp
  | some board =>
  cases hbm : findSub "bm".data line.data with
  | none => simp [parse_epd, hf, hb, hbm] at hp
  | some bmIdx =>
  cases hsl : sliceFrom (bmIdx + 3) line.data with
  | none => simp [parse_epd, hf, hb, hbm, hsl] at hp
  | some bmTail =>
  cases hsc : findSub [';'] bmTail with
  | none => simp [parse_epd, hf, hb, hbm, hsl, hsc] at hp
  | some endIdx =>
  cases hcv : convMoves R board (fenStringOf line) (splitChar ' ' (bmTail.take endIdx)) with
  | error e => simp [parse_epd, hf, hb, hbm, hsl, hsc, hcv] at hp
  | ok bms =>
  cases hsl2 : sliceFrom (idIdx + 4) line.data with
  | none => simp [parse_epd, hf, hb, hbm, hsl, hsc, hcv, hid, hsl2] at hp
  | some idTail =>
    have hTail : idTail = line.data.drop (idIdx + 4) := sliceFrom_some _ _ _ hsl2
    have hsplitq : splitChar '\"' idTail = [idTail] :=
      splitChar_no_sep _ _ (by rw [hTail]; exact hq)
    simp only [parse_epd, hf, hb, hbm, hsl, hsc, hcv, hid, hsl2, hsplitq,
      List.head?_cons] at hp
    cases hp
    show String.mk idTail = String.mk (line.data.drop (idIdx + 4))
    rw [hTail]

theorem C10_amended_witness :
    (⟨toyFen, ["e2e4"], "osition-1"⟩ : EpdPosition).id =
      String.mk (("k7/8/8/8/8/8/8/7K w - - bm e4; id position-1").data.drop 35) ∧
    ∀ (l s : String), parse_epd toyRules 0 l ≠ .fails (.noId s) :=
  C10_amended toyRules 0 "k7/8/8/8/8/8/8/7K w - - bm e4; id position-1"
    ⟨toyFen, ["e2e4"], "osition-1"⟩ 31 (by decide) (by decide) (by decide)

/-! ## Injectivity of the decimal rendering used for synthesized ids -/

/-- Decimal value of a digit string (most significant first). -/
def digitsVal (l : List Char) : Nat :=
  l.foldl (fun a c => 10 * a + (c.toNat - 48)) 0

lemma toDigitsCore_shift (b : Nat) : ∀ (fuel n : Nat) (ds : List Char),
    Nat.toDigitsCore b fuel n ds = Nat.toDigitsCore b fuel n [] ++ ds := by
  intro fuel
  induction fuel with
  | zero => intro n ds; simp [Nat.toDigitsCore]
  | succ f ih =>
    intro n ds
    simp only [Nat.toDigitsCore]
    by_cases h : n / b = 0
    · simp [h]
    · rw [if_neg h, if_neg h]
      rw [ih (n / b) (Nat.digitChar (n % b) :: ds), ih (n / b) [Nat.digitChar (n % b)]]
      simp

lemma digitChar_val (n : Nat) (h : n < 10) : (Nat.digitChar n).toNat = 48 + n := by
  interval_cases n <;> decide

lemma digitsVal_append_one (l : List Char) (d : Char) :
    digitsVal (l ++ [d]) = 10 * digitsVal l + (d.toNat - 48) := by
  simp [digitsVal, List.foldl_append]

lemma toDigitsCore_val : ∀ (fuel n : Nat), n < fuel →
    digitsVal (Nat.toDigitsCore 10 fuel n []) = n := by
  intro fuel
  induction fuel with
  | zero => intro n h; exact absurd h (Nat.not_lt_zero n)
  | succ f ih =>
    intro n hn
    simp only [Nat.toDigitsCore]
    by_cases h : n / 10 = 0
    · rw [if_pos h]
      have h10 : n < 10 := by omega
      have hd := digitChar_val (n % 10) (by omega)
      simp [digitsVal, hd]
      omega
    · rw [if_neg h]
      rw [toDigitsCore_shift 10 f (n / 10) [Nat.digitChar (n % 10)]]
      rw [digitsVal_append_one]
      rw [ih (n / 10) (by omega)]
      rw [digitChar_val (n % 10) (by omega)]
      omega

lemma natRepr_injective (m n : Nat) (h : Nat.repr m = Nat.repr n) : m = n := by
  have hl : Nat.toDigits 10 m = Nat.toDigits 10 n := congrArg String.data h
  have hv : digitsVal (Nat.toDigitsCore 10 (m + 1) m []) =
      digitsVal (Nat.toDigitsCore 10 (n + 1) n []) := congrArg digitsVal hl
  rw [toDigitsCore_val (m + 1) m (Nat.lt_succ_self m),
    toDigitsCore_val (n + 1) n (Nat.lt_succ_self n)] at hv
  exact hv

/-! ## Lemmas about `parseAll` and the id counter -/

/-- A successfully parsed line with no `id` substring gets the synthesized
label built from the counter value of its parse attempt. -/
lemma parse_epd_noid {F B S M : Type} (R : ChessRules F B S M) (c : Nat)
    (line : String) (p : EpdPosition)
    (hp : parse_epd R c line = .succeeds p)
    (hid : findSub "id".data line.data = none) :
    p.id = "position " ++ Nat.repr c := by
  cases hf : R.parseFen (fenStringOf line) with
  | none => simp [parse_epd, hf] at hp
  | some fen =>
  cases hb : R.intoPosition fen with
  | none => simp [parse_epd, hf, hb] at hp
  | some board =>
  cases hbm : findSub "bm".data line.data with
  | none => simp [parse_epd, hf, hb, hbm] at hp
  | some bmIdx =>
  cases hsl : sliceFrom (bmIdx + 3) line.data with
  | none => simp [parse_epd, hf, hb, hbm, hsl] at hp
  | some bmTail =>
  cases hsc : findSub [';'] bmTail with
  | none => simp [parse_epd, hf, hb, hbm, hsl, hsc] at hp
  | some endIdx =>
  cases hcv : convMoves R board (fenStringOf line) (splitChar ' ' (bmTail.take endIdx)) with
  | error e => simp [parse_epd, hf, hb, hbm, hsl, hsc, hcv] at hp
  | ok bms =>
    simp only [parse_epd, hf, hb, hbm, hsl, hsc, hcv, hid] at hp
    cases hp
    rfl

/-- One-step unfolding of `parseAll` on a nonempty line list. -/
lemma parseAll_cons {F B S M : Type} (R : ChessRules F B S M) (c : Nat)
    (l : String) (ls : List String) :
    parseAll R c (l :: ls) =
      (match parse_epd R c l with
       | .panics => (.panics, c + 1)
       | .fails e => (.fails e, c + 1)
       | .succeeds p =>
         match parseAll R (c + 1) ls with
         | (.ok ps, c') => (.ok (p :: ps), c')
         | (r, c') => (r, c')) := rfl

/-- Characterization of a fully successful parse pass: one record per line,
the counter advanced once per line, and the `k`-th record obtained from the
`k`-th line at counter value `c0 + k`. -/
lemma parseAll_ok_spec {F B S M : Type} (R : ChessRules F B S M) :
    ∀ (lines : List String) (c0 : Nat) (ps : List EpdPosition),
    (parseAll R c0 lines).1 = .ok ps →
    ps.length = lines.length ∧ (parseAll R c0 lines).2 = c0 + lines.length ∧
    ∀ k (hk : k < lines.length) (hk' : k < ps.length),
      parse_epd R (c0 + k) (lines.get ⟨k, hk⟩) = .succeeds (ps.get ⟨k, hk'⟩) := by
  intro lines
  induction lines with
  | nil =>
    intro c0 ps h
    have h2 : ParseRes.ok ([] : List EpdPosition) = .ok ps := h
    injection h2 with h2
    subst h2
    exact ⟨rfl, rfl, fun k hk _ => absurd hk (by simp)⟩
  | cons l ls ih =>
    intro c0 ps h
    cases hpe : parse_epd R c0 l with
    | panics => rw [parseAll_cons, hpe] at h; simp at h
    | fails e => rw [parseAll_cons, hpe] at h; simp at h
    | succeeds p =>
      rw [parseAll_cons, hpe] at h
      cases hrec : parseAll R (c0 + 1) ls with
      | mk r c' =>
        rw [hrec] at h
        cases r with
        | panics => simp at h
        | fails e => simp at h
        | ok ps' =>
          have h2 : ParseRes.ok (p :: ps') = .ok ps := h
          injection h2 with h2
          subst h2
          obtain ⟨hlen, hcnt, hidx⟩ := ih (c0 + 1) ps' (by rw [hrec])
          rw [hrec] at hcnt
          refine ⟨by simp [hlen], ?_, ?_⟩
          · rw [parseAll_cons, hpe, hrec]
            show c' = c0 + (ls.length + 1)
            have : c' = c0 + 1 + ls.length := hcnt
            omega
          · intro k hk hk'
            cases k with
            | zero => simpa using hpe
            | succ k2 =>
              have hrec2 := hidx k2 (by simpa using hk) (by simpa using hk')
              have harith : c0 + (k2 + 1) = c0 + 1 + k2 := by omega
              rw [harith]
              simpa using hrec2

/-- C7: in a fully successful run, the records at positions `i < j` that
lack an `id` marker get the synthesized labels `position <c0+i>` and
`position <c0+j>`, which are distinct (and carry increasing counter
values); the session counter ends at `c0 + lines.length`, having advanced
exactly once per parse attempt. -/
theorem C7_confirmed {F B S M : Type} (R : ChessRules F B S M) (c0 : Nat)
    (lines : List String) (ps : List EpdPosition) (i j : Nat)
    (hok : (parseAll R c0 lines).1 = .ok ps)
    (hi : i < lines.length) (hj : j < lines.length) (hij : i < j)
    (hni : findSub "id".data (lines.get ⟨i, hi⟩).data = none)
    (hnj : findSub "id".data (lines.get ⟨j, hj⟩).data = none) :
    ∃ (hi' : i < ps.length) (hj' : j < ps.length),
      (ps.get ⟨i, hi'⟩).id = "position " ++ Nat.repr (c0 + i) ∧
      (ps.get ⟨j, hj'⟩).id = "position " ++ Nat.repr (c0 + j) ∧
      (ps.get ⟨i, hi'⟩).id ≠ (ps.get ⟨j, hj'⟩).id ∧
      (parseAll R c0 lines).2 = c0 + lines.length := by
  obtain ⟨hlen, hcnt, hidx⟩ := parseAll_ok_spec R lines c0 ps hok
  have hi' : i < ps.length := by omega
  have hj' : j < ps.length := by omega
  have hidi : (ps.get ⟨i, hi'⟩).id = "position " ++ Nat.repr (c0 + i) :=
    parse_epd_noid R (c0 + i) _ _ (hidx i hi hi') hni
  have hidj : (ps.get ⟨j, hj'⟩).id = "position " ++ Nat.repr (c0 + j) :=
    parse_epd_noid R (c0 + j) _ _ (hidx j hj hj') hnj
  refine ⟨hi', hj', hidi, hidj, ?_, hcnt⟩
  rw [hidi, hidj]
  intro he
  have h2 := congrArg String.data he
  rw [data_append, data_append] at h2
  have h3 := List.append_cancel_left h2
  have h4 : Nat.repr (c0 + i) = Nat.repr (c0 + j) := congrArg String.mk h3
  have := natRepr_injective _ _ h4
  omega

def toyLine : String := "k7/8/8/8/8/8/8/7K w - - bm e4;"

def toyRecords : List EpdPosition :=
  [⟨toyFen, ["e2e4"], "position 0"⟩, ⟨toyFen, ["e2e4"], "position 1"⟩]

theorem C7_confirmed_witness :
    ∃ (hi' : 0 < toyRecords.length) (hj' : 1 < toyRecords.length),
      (toyRecords.get ⟨0, hi'⟩).id = "position " ++ Nat.repr (0 + 0) ∧
      (toyRecords.get ⟨1, hj'⟩).id = "position " ++ Nat.repr (0 + 1) ∧
      (toyRecords.get ⟨0, hi'⟩).id ≠ (toyRecords.get ⟨1, hj'⟩).id ∧
      (parseAll toyRules 0 [toyLine, toyLine]).2 = 0 + [toyLine, toyLine].length :=
  C7_confirmed toyRules 0 [toyLine, toyLine] toyRecords 0 1
    (by decide) (by decide) (by decide) (by decide) (by decide) (by decide)

/-! ## The fail-fast run pipeline -/

/-- A parse failure on some line, after a successfully parsed prefix,
fails the whole pass with that error — the lines after it are never
consulted. -/
lemma parseAll_append_fail {F B S M : Type} (R : ChessRules F B S M) :
    ∀ (pre : List String) (c0 : Nat) (qs : List EpdPosition) (l : String)
      (post : List String) (e : EpdError),
    (parseAll R c0 pre).1 = .ok qs →
    parse_epd R (c0 + pre.length) l = .fails e →
    (parseAll R c0 (pre ++ l :: post)).1 = .fails e := by
  intro pre
  induction pre with
  | nil =>
    intro c0 qs l post e _ hl
    have hl' : parse_epd R c0 l = .fails e := by simpa using hl
    rw [List.nil_append, parseAll_cons, hl']
  | cons q pre ih =>
    intro c0 qs l post e hok hl
    cases hpe : parse_epd R c0 q with
    | panics => rw [parseAll_cons, hpe] at hok; simp at hok
    | fails e2 => rw [parseAll_cons, hpe] at hok; simp at hok
    | succeeds p =>
      rw [parseAll_cons, hpe] at hok
      cases hrec : parseAll R (c0 + 1) pre with
      | mk r c' =>
        rw [hrec] at hok
        cases r with
        | panics => simp at hok
        | fails e2 => simp at hok
        | ok qs' =>
          have hl' : parse_epd R (c0 + 1 + pre.length) l = .fails e := by
            have harith : c0 + 1 + pre.length = c0 + (pre.length + 1) := by omega
            rw [harith]
            simpa using hl
          have hfail := ih (c0 + 1) qs' l post e (by rw [hrec]) hl'
          rw [List.cons_append, parseAll_cons, hpe]
          cases hres : parseAll R (c0 + 1) (pre ++ l :: post) with
          | mk r2 c2 =>
            rw [hres] at hfail
            cases r2 with
            | panics => simp at hfail
            | ok ps2 => simp at hfail
            | fails e3 =>
              have he : e3 = e := by
                have : ParseRes.fails e3 = .fails e := hfail
                injection this
              subst he
              rfl

/-- C3: if some line fails to parse (here: the first failing line, after a
prefix that parses), the whole run returns the parse error before the
engine is booted — no command is ever sent and no outcome is produced,
whatever the rest of the file or the engine script contains. -/
theorem C3_confirmed {F B S M : Type} (R : ChessRules F B S M) (cfg : Config)
    (pre : List String) (l : String) (post : List String) (stream : List String)
    (qs : List EpdPosition) (e : EpdError)
    (hpre : (parseAll R 0 pre).1 = .ok qs)
    (hl : parse_epd R pre.length l = .fails e) :
    runMain R cfg (pre ++ l :: post) stream = ([], .fails (.parse e)) := by
  have hfail := parseAll_append_fail R pre 0 qs l post e hpre (by simpa using hl)
  unfold runMain
  rw [hfail]

theorem C3_confirmed_witness :
    runMain toyRules ⟨false, [], "movetime 1000"⟩
      ([toyLine] ++ "" :: ["junk"]) ["readyok"] =
      ([], .fails (.parse (.invalidFen "1 1"))) :=
  C3_confirmed toyRules ⟨false, [], "movetime 1000"⟩ [toyLine] "" ["junk"]
    ["readyok"] [⟨toyFen, ["e2e4"], "position 0"⟩] (.invalidFen "1 1")
    (by decide) (by decide)

/-- The per-record loop, when it completes, appends one outcome per record
and adds one success per passed outcome to the incoming counter. -/
lemma runRecords_ok_spec (early : Bool) (go : String) :
    ∀ (recs : List EpdPosition) (stream : List String) (acc : List Outcome)
      (succ0 : Nat) (cmds : List String) (outs : List Outcome) (succ : Nat),
    runRecords early go recs stream acc succ0 = (cmds, .ok outs succ) →
    ∃ news, outs = acc ++ news ∧ news.length = recs.length ∧
      succ = succ0 + (news.filter (fun o => o.passed)).length := by
  intro recs
  induction recs with
  | nil =>
    intro stream acc succ0 cmds outs succ h
    have hsnd : RecRes.ok acc succ0 = .ok outs succ := congrArg Prod.snd h
    injection hsnd with h1 h2
    subst h1
    subst h2
    exact ⟨[], by simp, rfl, by simp⟩
  | cons epd rest ih =>
    intro stream acc succ0 cmds outs succ h
    cases hsl : searchLoop early epd.best_moves stream with
    | panic =>
      simp only [runRecords, hsl] at h
      have := congrArg Prod.snd h
      simp at this
    | streamEnd =>
      simp only [runRecords, hsl] at h
      have := congrArg Prod.snd h
      simp at this
    | done resp stops rest' =>
      simp only [runRecords, hsl] at h
      cases hmv : (splitWhitespace resp).get? 1 with
      | none =>
        simp only [hmv] at h
        have := congrArg Prod.snd h
        simp at this
      | some mv =>
        simp only [hmv] at h
        cases hrec : runRecords early go rest rest'
            (acc ++ [⟨epd.id, mv, epd.best_moves.contains mv⟩])
            (if epd.best_moves.contains mv then succ0 + 1 else succ0) with
        | mk cmds2 res2 =>
          rw [hrec] at h
          have hsnd : res2 = .ok outs succ := congrArg Prod.snd h
          subst hsnd
          obtain ⟨news', hout, hlen, hsu⟩ :=
            ih rest' _ _ cmds2 outs succ hrec
          refine ⟨⟨epd.id, mv, epd.best_moves.contains mv⟩ :: news', ?_,
            by simp [hlen], ?_⟩
          · rw [hout]; simp
          · rw [hsu]
            cases hpass : epd.best_moves.contains mv with
            | true => simp [hpass]; omega
            | false => simp [hpass]

/-- C8: whenever the run completes and reports, the reported success count
equals the number of outcomes whose `passed` field is true, and the
reported total equals the number of outcomes, which is the number of
records that parsed (all of them, since a run with any parse failure never
reports); each record contributes exactly one outcome, scored once. -/
theorem C8_confirmed {F B S M : Type} (R : ChessRules F B S M) (cfg : Config)
    (epdLines stream cmds : List String) (outs : List Outcome) (succ n : Nat)
    (h : runMain R cfg epdLines stream = (cmds, .ok outs succ n)) :
    succ = (outs.filter (fun o => o.passed)).length ∧
    n = outs.length ∧
    ∃ ps, (parseAll R 0 epdLines).1 = .ok ps ∧ n = ps.length := by
  cases hpa : (parseAll R 0 epdLines).1 with
  | panics =>
    simp only [runMain, hpa] at h
    have := congrArg Prod.snd h
    simp at this
  | fails e =>
    simp only [runMain, hpa] at h
    have := congrArg Prod.snd h
    simp at this
  | ok ps =>
    simp only [runMain, hpa] at h
    cases hhs : handshake stream with
    | none =>
      simp only [hhs] at h
      have := congrArg Prod.snd h
      simp at this
    | some stream1 =>
      simp only [hhs] at h
      cases hoc : optCmds cfg.options with
      | mk cs err =>
        simp only [hoc] at h
        cases err with
        | some o =>
          have := congrArg Prod.snd h
          simp at this
        | none =>
          cases hemp : ps.isEmpty with
          | true =>
            simp only [hemp, if_true] at h
            have := congrArg Prod.snd h
            simp at this
          | false =>
            simp only [hemp, Bool.false_eq_true, if_false] at h
            cases hrr : runRecords cfg.earlypass cfg.goCmd ps stream1 [] 0 with
            | mk cmds2 res =>
              simp only [hrr] at h
              cases res with
              | panics =>
                have := congrArg Prod.snd h
                simp at this
              | hangs =>
                have := congrArg Prod.snd h
                simp at this
              | fails r =>
                have := congrArg Prod.snd h
                simp at this
              | ok outs2 succ2 =>
                have hsnd : RunRes.ok outs2 succ2 ps.length = .ok outs succ n :=
                  congrArg Prod.snd h
                injection hsnd with h1 h2 h3
                obtain ⟨news, hout, hlen, hsu⟩ :=
                  runRecords_ok_spec cfg.earlypass cfg.goCmd ps stream1 [] 0
                    cmds2 outs2 succ2 hrr
                rw [List.nil_append] at hout
                subst hout
                rw [← h1, ← h2, ← h3]
                exact ⟨by simpa using hsu, by omega, ps, rfl, rfl⟩

theorem C8_confirmed_witness :
    (1 : Nat) = (([⟨"position 0", "e2e4", true⟩] : List Outcome).filter
      (fun o => o.passed)).length ∧
    (1 : Nat) = ([⟨"position 0", "e2e4", true⟩] : List Outcome).length ∧
    ∃ ps, (parseAll toyRules 0 [toyLine]).1 = .ok ps ∧ 1 = ps.length :=
  C8_confirmed toyRules ⟨false, [], "movetime 1000"⟩ [toyLine]
    ["uciok", "readyok", "info depth 1", "bestmove e2e4"]
    ["uci\n", "isready\n", "ucinewgame\n", "position fen " ++ toyFen ++ "\n",
      "go movetime 1000\n"]
    [⟨"position 0", "e2e4", true⟩] 1 1 (by decide)

end Uci
